import Mathlib

/-!
Verification of the execution core of the mcp-portal backend.

The definitions below are shallow embeddings of the Python sources:
  * `backend/app/services/session_pool.py` (SessionPool),
  * `backend/app/services/test_runs.py`   (run ledger helpers, startup
    recovery, run worker processing),
  * `backend/app/services/tasks.py`       (ad-hoc task finalization and
    cancellation),
  * `backend/app/services/prompts.py`     (prompt rendering).

Machine timestamps are modelled as natural numbers; each embedded helper
takes the current clock value as an explicit argument.  Fallible external
effects (database commits, log writes, the agent event stream) are modelled
by explicit boolean outcome parameters.
-/

/-- `SessionDefinition` from `session_pool.py`: an immutable session handle
with an identifier and two endpoint URLs. -/
structure SessionDefinition where
  identifier : String
  server_url : String
  xpra_url : String
deriving DecidableEq

/-- One waiter future sitting in the pool deque.  `cancelled` models
`future.done()` becoming true through cancellation of the waiting caller;
`caller` records which caller is waiting (ghost information used to state
exclusivity), `wid` is the arrival number of the waiter. -/
structure PoolWaiter where
  wid : Nat
  caller : Nat
  cancelled : Bool
deriving DecidableEq

/-- State of `SessionPool`.  `available` is the free list kept
most-recently-pushed first (the Python code pushes and pops at the right
end of `self._available`; this embedding keeps that end at the head).
`in_use` models the `self._in_use` dict keyed by `identifier`.  `waiters`
is the waiter deque, head = front.  `held`, `served` and `nextW` are ghost
fields: `held` lists the (caller, handle) pairs currently handed out to
callers, `served` lists the waiter ids that were handed a handle, in
hand-off order, and `nextW` numbers waiter arrivals. -/
structure PoolState where
  available : List SessionDefinition
  in_use : List SessionDefinition
  waiters : List PoolWaiter
  nextW : Nat
  held : List (Nat × SessionDefinition)
  served : List Nat
deriving DecidableEq

/-- Pool construction: `SessionPool.__init__` copies the configured session
list into `self._available`.  The list is reversed here because this
embedding keeps Python's right end (the pop/push end) at the head. -/
def initPool (sessions : List SessionDefinition) : PoolState :=
  { available := sessions.reverse
    in_use := []
    waiters := []
    nextW := 0
    held := []
    served := [] }

/-- `SessionPool.acquire_nowait` (caller `c`): pop a free handle if any and
record it in `_in_use`, else return `None` with no side effect. -/
def acquireNowaitStep (c : Nat) (s : PoolState) :
    Option SessionDefinition × PoolState :=
  match s.available with
  | a :: rest =>
      (some a,
        { s with
            available := rest
            in_use := a :: s.in_use.filter (fun x => ¬ x.identifier = a.identifier)
            held := (c, a) :: s.held })
  | [] => (none, s)

/-- `SessionPool.acquire` (caller `c`), the part executed under the lock:
take a free handle immediately when one exists, otherwise append a fresh
waiter future to the deque (the caller then suspends on that future). -/
def acquireStep (c : Nat) (s : PoolState) :
    Option SessionDefinition × PoolState :=
  match s.available with
  | a :: rest =>
      (some a,
        { s with
            available := rest
            in_use := a :: s.in_use.filter (fun x => ¬ x.identifier = a.identifier)
            held := (c, a) :: s.held })
  | [] =>
      (none,
        { s with
            waiters := s.waiters ++ [{ wid := s.nextW, caller := c, cancelled := false }]
            nextW := s.nextW + 1 })

/-- The `while self._waiters` loop of `SessionPool.release`: pop waiters
from the left, discarding those whose future is already done (cancelled),
and return the first live waiter together with the remaining deque. -/
def popWaiter : List PoolWaiter → Option PoolWaiter × List PoolWaiter
  | [] => (none, [])
  | w :: ws => if w.cancelled then popWaiter ws else (some w, ws)

/-- Removal of the first occurrence of the holding `(c, a)` from the ghost
list of handed-out handles (the effective `release` path takes the handle
back from its holder). -/
def removeHolding (c : Nat) (a : SessionDefinition) :
    List (Nat × SessionDefinition) → List (Nat × SessionDefinition)
  | [] => []
  | p :: ps => if p = (c, a) then ps else p :: removeHolding c a ps

/-- `SessionPool.release` (caller `c` releasing handle `a`): a no-op unless
`a.identifier` is recorded in `_in_use`; otherwise the handle is handed to
the first live waiter if any, else appended to the free list.  Note, as in
the source, that a handle handed to a waiter is NOT re-recorded in
`_in_use`. -/
def releaseStep (c : Nat) (a : SessionDefinition) (s : PoolState) : PoolState :=
  if s.in_use.any (fun x => x.identifier = a.identifier) then
    let inUse2 := s.in_use.filter (fun x => ¬ x.identifier = a.identifier)
    let held2 := removeHolding c a s.held
    match popWaiter s.waiters with
    | (some w, ws) =>
        { s with
            in_use := inUse2
            held := (w.caller, a) :: held2
            waiters := ws
            served := s.served ++ [w.wid] }
    | (none, ws) =>
        { s with
            in_use := inUse2
            held := held2
            waiters := ws
            available := a :: s.available }
  else s

/-- Cancellation of a queued waiter (the caller's coroutine is cancelled,
which marks the awaited future done). -/
def cancelWaiterStep (wid : Nat) (s : PoolState) : PoolState :=
  { s with
      waiters := s.waiters.map
        (fun w => if w.wid = wid then { w with cancelled := true } else w) }

/-- One pool operation: an `acquire_nowait` call, the locked section of an
`acquire` call, a `release` call, or cancellation of a queued waiter. -/
inductive PoolOp
  | acqNoWait (c : Nat)
  | acq (c : Nat)
  | rel (c : Nat) (a : SessionDefinition)
  | cancelWaiter (wid : Nat)
deriving DecidableEq

def poolStep (op : PoolOp) (s : PoolState) : PoolState :=
  match op with
  | .acqNoWait c => (acquireNowaitStep c s).2
  | .acq c => (acquireStep c s).2
  | .rel c a => releaseStep c a s
  | .cancelWaiter wid => cancelWaiterStep wid s

def poolRun (s : PoolState) (ops : List PoolOp) : PoolState :=
  ops.foldl (fun t op => poolStep op t) s

/-- Protocol discipline of pool callers: a caller only releases a handle it
currently holds; any other release call may only target a handle not
currently recorded in use (the double-release the source guards against). -/
def opOk : PoolOp → PoolState → Prop
  | .rel c a, s => (c, a) ∈ s.held ∨ ∀ x ∈ s.in_use, x.identifier ≠ a.identifier
  | _, _ => True

instance instDecOpOk (op : PoolOp) (s : PoolState) : Decidable (opOk op s) := by
  cases op <;> simp only [opOk] <;> infer_instance

/-- A whole operation sequence respects the caller protocol. -/
def wfRun : PoolState → List PoolOp → Prop
  | _, [] => True
  | s, op :: ops => opOk op s ∧ wfRun (poolStep op s) ops

instance instDecWfRun : (s : PoolState) → (ops : List PoolOp) → Decidable (wfRun s ops)
  | _, [] => isTrue trivial
  | s, op :: ops =>
      @instDecidableAnd _ _ (instDecOpOk op s) (instDecWfRun (poolStep op s) ops)

/-- The first configured session of `SESSION_POOL`. -/
def h8882 : SessionDefinition :=
  { identifier := "8882"
    server_url := "http://10.160.13.110:8882/sse"
    xpra_url := "http://10.160.13.110:10000" }

/-- **C1.** Acquire/release round trip.  The claim fails on the hand-off
path: caller 1 takes the only handle with `acquire_nowait`, caller 2 blocks
in `acquire`, caller 1 releases (the handle is handed to caller 2's waiter
future, but — as in the source — never re-recorded in `_in_use`), and then
caller 2's own `release` is a no-op.  The handle ends up neither in the
free list nor in use, and a further `acquire_nowait` finds the pool empty:
the handle is leaked instead of becoming available again.  The trace is
protocol-respecting (`wfRun`). -/
theorem c1_roundtrip_fails_after_waiter_handoff :
    wfRun (initPool [h8882])
      [PoolOp.acqNoWait 1, PoolOp.acq 2, PoolOp.rel 1 h8882, PoolOp.rel 2 h8882] ∧
    (poolRun (initPool [h8882])
      [PoolOp.acqNoWait 1, PoolOp.acq 2, PoolOp.rel 1 h8882, PoolOp.rel 2 h8882]).available = [] ∧
    (poolRun (initPool [h8882])
      [PoolOp.acqNoWait 1, PoolOp.acq 2, PoolOp.rel 1 h8882, PoolOp.rel 2 h8882]).in_use = [] ∧
    (poolRun (initPool [h8882])
      [PoolOp.acqNoWait 1, PoolOp.acq 2, PoolOp.rel 1 h8882, PoolOp.rel 2 h8882]).served = [0] ∧
    (acquireNowaitStep 3 (poolRun (initPool [h8882])
      [PoolOp.acqNoWait 1, PoolOp.acq 2, PoolOp.rel 1 h8882, PoolOp.rel 2 h8882])).1 = none := by
  decide


/-- Identifiers of a list of session handles. -/
def idsOf (l : List SessionDefinition) : List String :=
  l.map SessionDefinition.identifier

/-- Identifiers of the ghost list of held (caller, handle) pairs. -/
def heldIds (h : List (Nat × SessionDefinition)) : List String :=
  h.map (fun p => (p.2).identifier)

/-- Pool exclusivity invariant for a pool configured with `n` handles:
free handles and handed-out handles have pairwise distinct identifiers,
every handle recorded in `_in_use` is indeed handed out to some caller,
free plus handed-out handle count is exactly `n`, and `_in_use` keys are
distinct. -/
def poolInv (n : Nat) (s : PoolState) : Prop :=
  (idsOf s.available ++ heldIds s.held).Nodup
  ∧ (∀ x ∈ s.in_use, x.identifier ∈ heldIds s.held)
  ∧ s.available.length + s.held.length = n
  ∧ (idsOf s.in_use).Nodup

lemma removeHolding_perm (c : Nat) (a : SessionDefinition) :
    ∀ (h : List (Nat × SessionDefinition)), (c, a) ∈ h →
      h.Perm ((c, a) :: removeHolding c a h)
  | p :: ps, hmem => by
      by_cases hp : p = (c, a)
      · subst hp
        simp [removeHolding]
      · have hps : (c, a) ∈ ps := by
          rcases List.mem_cons.mp hmem with h1 | h2
          · exact absurd h1.symm hp
          · exact h2
        have ih := removeHolding_perm c a ps hps
        have hs1 : (p :: ps).Perm (p :: (c, a) :: removeHolding c a ps) := ih.cons p
        have hs2 : (p :: (c, a) :: removeHolding c a ps).Perm
            ((c, a) :: p :: removeHolding c a ps) := List.Perm.swap _ _ _
        have hs3 : (c, a) :: p :: removeHolding c a ps =
            (c, a) :: removeHolding c a (p :: ps) := by
          simp [removeHolding, hp]
        exact hs3 ▸ hs1.trans hs2

lemma takeFree_inv (n c : Nat) (a : SessionDefinition) (rest : List SessionDefinition)
    (s : PoolState) (hav : s.available = a :: rest) (hinv : poolInv n s) :
    poolInv n
      { s with
          available := rest
          in_use := a :: s.in_use.filter (fun x => ¬ x.identifier = a.identifier)
          held := (c, a) :: s.held } := by
  obtain ⟨h1, h2, h3, h4⟩ := hinv
  rw [hav] at h1 h3
  refine ⟨?_, ?_, ?_, ?_⟩
  · simp only [idsOf, heldIds, List.map_cons] at h1 ⊢
    exact (List.perm_middle.nodup_iff).mpr h1
  · intro x hx
    rcases List.mem_cons.mp hx with hxa | hxf
    · subst hxa
      simp [heldIds]
    · have hmem := h2 x (List.mem_filter.mp hxf).1
      simp only [heldIds, List.map_cons]
      exact List.mem_cons_of_mem _ hmem
  · simp only [List.length_cons] at h3 ⊢
    omega
  · simp only [idsOf, List.map_cons, List.nodup_cons]
    refine ⟨?_, h4.sublist ((List.filter_sublist _).map _)⟩
    intro hmem
    rcases List.mem_map.mp hmem with ⟨y, hy, hyid⟩
    have hne := (List.mem_filter.mp hy).2
    simp only [decide_eq_true_eq] at hne
    exact hne hyid

lemma poolStep_inv (n : Nat) (op : PoolOp) (s : PoolState)
    (hinv : poolInv n s) (hok : opOk op s) : poolInv n (poolStep op s) := by
  obtain ⟨h1, h2, h3, h4⟩ := hinv
  cases op with
  | acqNoWait c =>
      rcases hav : s.available with _ | ⟨a, rest⟩
      · simpa [poolStep, acquireNowaitStep, hav] using ⟨h1, h2, h3, h4⟩
      · have hstep : poolStep (PoolOp.acqNoWait c) s =
            { s with
                available := rest
                in_use := a :: s.in_use.filter (fun x => ¬ x.identifier = a.identifier)
                held := (c, a) :: s.held } := by
          simp [poolStep, acquireNowaitStep, hav]
        rw [hstep]
        exact takeFree_inv n c a rest s hav ⟨h1, h2, h3, h4⟩
  | acq c =>
      rcases hav : s.available with _ | ⟨a, rest⟩
      · have hstep : poolStep (PoolOp.acq c) s =
            { s with
                waiters := s.waiters ++ [{ wid := s.nextW, caller := c, cancelled := false }]
                nextW := s.nextW + 1 } := by
          simp [poolStep, acquireStep, hav]
        rw [hstep]
        exact ⟨h1, h2, h3, h4⟩
      · have hstep : poolStep (PoolOp.acq c) s =
            { s with
                available := rest
                in_use := a :: s.in_use.filter (fun x => ¬ x.identifier = a.identifier)
                held := (c, a) :: s.held } := by
          simp [poolStep, acquireStep, hav]
        rw [hstep]
        exact takeFree_inv n c a rest s hav ⟨h1, h2, h3, h4⟩
  | cancelWaiter wid =>
      exact ⟨h1, h2, h3, h4⟩
  | rel c a =>
      by_cases hhit : s.in_use.any (fun x => x.identifier = a.identifier) = true
      swap
      · have hstep : poolStep (PoolOp.rel c a) s = s := by
          simp [poolStep, releaseStep, hhit]
        rw [hstep]
        exact ⟨h1, h2, h3, h4⟩
      · have hheld : (c, a) ∈ s.held := by
          rcases hok with hokh | hokn
          · exact hokh
          · exfalso
            rcases List.any_eq_true.mp hhit with ⟨x, hx, hxe⟩
            exact hokn x hx (of_decide_eq_true hxe)
        have hperm : s.held.Perm ((c, a) :: removeHolding c a s.held) :=
          removeHolding_perm c a s.held hheld
        have hpermIds : (heldIds s.held).Perm
            (a.identifier :: heldIds (removeHolding c a s.held)) := by
          simpa [heldIds] using hperm.map (fun p => (p.2).identifier)
        have key : (a.identifier ::
            (idsOf s.available ++ heldIds (removeHolding c a s.held))).Nodup := by
          have step1 : (idsOf s.available ++ heldIds s.held).Nodup ↔
              (idsOf s.available ++
                (a.identifier :: heldIds (removeHolding c a s.held))).Nodup :=
            (hpermIds.append_left (idsOf s.available)).nodup_iff
          exact (List.perm_middle.nodup_iff).mp (step1.mp h1)
        have hN2 : (idsOf s.available ++ heldIds (removeHolding c a s.held)).Nodup :=
          (List.nodup_cons.mp key).2
        have hfilterND : (idsOf (s.in_use.filter
            (fun x => ¬ x.identifier = a.identifier))).Nodup :=
          h4.sublist ((List.filter_sublist _).map _)
        have hmemIds : ∀ x ∈ s.in_use.filter (fun x => ¬ x.identifier = a.identifier),
            x.identifier ∈ heldIds (removeHolding c a s.held) := by
          intro x hx
          have hxin := (List.mem_filter.mp hx).1
          have hxne : ¬ x.identifier = a.identifier := by
            have := (List.mem_filter.mp hx).2
            simpa using this
          have hxH : x.identifier ∈ heldIds s.held := h2 x hxin
          rcases List.mem_cons.mp (hpermIds.mem_iff.mp hxH) with heq | hmem
          · exact absurd heq hxne
          · exact hmem
        have hlen : s.held.length = (removeHolding c a s.held).length + 1 := by
          simpa using hperm.length_eq
        rcases hpw : popWaiter s.waiters with ⟨ow, ws⟩
        cases ow with
        | some w =>
            have hstep : poolStep (PoolOp.rel c a) s =
                { s with
                    in_use := s.in_use.filter (fun x => ¬ x.identifier = a.identifier)
                    held := (w.caller, a) :: removeHolding c a s.held
                    waiters := ws
                    served := s.served ++ [w.wid] } := by
              simp [poolStep, releaseStep, hhit, hpw]
            rw [hstep]
            refine ⟨?_, ?_, ?_, hfilterND⟩
            · simp only [heldIds, List.map_cons] at key ⊢
              exact (List.perm_middle.nodup_iff).mpr key
            · intro x hx
              simp only [heldIds, List.map_cons]
              exact List.mem_cons_of_mem _ (hmemIds x hx)
            · simp only [List.length_cons]
              omega
        | none =>
            have hstep : poolStep (PoolOp.rel c a) s =
                { s with
                    in_use := s.in_use.filter (fun x => ¬ x.identifier = a.identifier)
                    held := removeHolding c a s.held
                    waiters := ws
                    available := a :: s.available } := by
              simp [poolStep, releaseStep, hhit, hpw]
            rw [hstep]
            refine ⟨?_, hmemIds, ?_, hfilterND⟩
            · simpa [idsOf, List.map_cons] using key
            · simp only [List.length_cons]
              omega

lemma poolRun_inv (n : Nat) :
    ∀ (ops : List PoolOp) (s : PoolState),
      poolInv n s → wfRun s ops → poolInv n (poolRun s ops)
  | [], _, hinv, _ => hinv
  | op :: ops, s, hinv, hwf =>
      poolRun_inv n ops (poolStep op s)
        (poolStep_inv n op s hinv hwf.1) hwf.2

lemma initPool_inv (sessions : List SessionDefinition)
    (hnd : (idsOf sessions).Nodup) : poolInv sessions.length (initPool sessions) := by
  refine ⟨?_, ?_, ?_, ?_⟩
  · simpa [initPool, idsOf, heldIds, List.nodup_reverse] using hnd
  · intro x hx; simp [initPool] at hx
  · simp [initPool]
  · simp [initPool, idsOf]

/-- **C2.** Pool exclusivity bound: for every protocol-respecting finite
sequence of interleaved `acquire`, `acquire_nowait` and `release`
operations (plus waiter cancellations) on a pool initialized with handles
of pairwise distinct identifiers, at most `N` handles are recorded in
`_in_use` at any point, the handles held by callers have pairwise distinct
identifiers (no handle is handed to two acquirers at once), and no handle
is simultaneously in the free list and in use. -/
theorem c2_pool_exclusivity (sessions : List SessionDefinition) (ops : List PoolOp)
    (hnd : (idsOf sessions).Nodup) (hwf : wfRun (initPool sessions) ops) :
    (poolRun (initPool sessions) ops).in_use.length ≤ sessions.length
    ∧ (heldIds (poolRun (initPool sessions) ops).held).Nodup
    ∧ ∀ x ∈ (poolRun (initPool sessions) ops).in_use,
        x.identifier ∉ idsOf (poolRun (initPool sessions) ops).available := by
  have hinv := poolRun_inv sessions.length ops (initPool sessions)
    (initPool_inv sessions hnd) hwf
  obtain ⟨h1, h2, h3, h4⟩ := hinv
  refine ⟨?_, List.Nodup.of_append_right h1, ?_⟩
  · have hsub : idsOf (poolRun (initPool sessions) ops).in_use ⊆
        heldIds (poolRun (initPool sessions) ops).held := by
      intro y hy
      rcases List.mem_map.mp hy with ⟨x, hx, hxy⟩
      exact hxy ▸ h2 x hx
    have hle := (h4.subperm hsub).length_le
    simp only [idsOf, heldIds, List.length_map] at hle
    omega
  · intro x hx hmemA
    have hdisj := (List.nodup_append.mp h1).2.2
    exact hdisj hmemA (h2 x hx)

/-- Second configured session of `SESSION_POOL` (used in witnesses). -/
def h8883 : SessionDefinition :=
  { identifier := "8883"
    server_url := "http://10.160.13.110:8883/sse"
    xpra_url := "http://10.160.13.110:10001" }

/-- Witness for C2 at a concrete input: a pool of two handles, one
immediate acquisition, two blocked waiters, one release handing a handle
over. -/
theorem c2_pool_exclusivity_witness :
    ((idsOf [h8882, h8883]).Nodup
     ∧ wfRun (initPool [h8882, h8883])
        [PoolOp.acqNoWait 1, PoolOp.acq 2, PoolOp.acq 3, PoolOp.rel 2 h8882])
    ∧ ((poolRun (initPool [h8882, h8883])
          [PoolOp.acqNoWait 1, PoolOp.acq 2, PoolOp.acq 3, PoolOp.rel 2 h8882]).in_use.length ≤
        [h8882, h8883].length
      ∧ (heldIds (poolRun (initPool [h8882, h8883])
          [PoolOp.acqNoWait 1, PoolOp.acq 2, PoolOp.acq 3, PoolOp.rel 2 h8882]).held).Nodup
      ∧ ∀ x ∈ (poolRun (initPool [h8882, h8883])
          [PoolOp.acqNoWait 1, PoolOp.acq 2, PoolOp.acq 3, PoolOp.rel 2 h8882]).in_use,
          x.identifier ∉ idsOf (poolRun (initPool [h8882, h8883])
            [PoolOp.acqNoWait 1, PoolOp.acq 2, PoolOp.acq 3, PoolOp.rel 2 h8882]).available) :=
  ⟨⟨by decide, by decide⟩,
    c2_pool_exclusivity _ _ (by decide) (by decide)⟩

/-- Recognizer for release operations. -/
def isRel : PoolOp → Bool
  | .rel _ _ => true
  | _ => false

lemma popWaiter_first_live :
    ∀ (l : List PoolWaiter), (∃ w ∈ l, w.cancelled = false) →
      ∃ pre w ws, popWaiter l = (some w, ws) ∧ l = pre ++ w :: ws
        ∧ (∀ x ∈ pre, x.cancelled = true) ∧ w.cancelled = false
  | [], h => absurd h (by simp)
  | x :: t, h => by
      by_cases hx : x.cancelled = true
      · have ht : ∃ w ∈ t, w.cancelled = false := by
          rcases h with ⟨w, hw, hwc⟩
          rcases List.mem_cons.mp hw with rfl | hwt
          · rw [hx] at hwc; cases hwc
          · exact ⟨w, hwt, hwc⟩
        rcases popWaiter_first_live t ht with ⟨pre, w, ws, hpw, hdec, hpre, hwc⟩
        refine ⟨x :: pre, w, ws, ?_, ?_, ?_, hwc⟩
        · simpa [popWaiter, hx] using hpw
        · simp [hdec]
        · intro y hy
          rcases List.mem_cons.mp hy with rfl | hyp
          · exact hx
          · exact hpre y hyp
      · exact ⟨[], x, t, by simp [popWaiter, hx], by simp, by simp,
          by simpa using hx⟩

lemma popWaiter_mid (A B : PoolWaiter) (hA : A.cancelled = false) :
    ∀ (u v w' : List PoolWaiter),
      (popWaiter (u ++ A :: (v ++ B :: w')) = (some A, v ++ B :: w')
        ∧ ∀ x ∈ u, x.cancelled = true)
      ∨ (∃ y u2, y.cancelled = false ∧ y ∈ u ∧ u2.Sublist u
          ∧ popWaiter (u ++ A :: (v ++ B :: w')) = (some y, u2 ++ A :: (v ++ B :: w')))
  | [], v, w' => Or.inl ⟨by simp [popWaiter, hA], by simp⟩
  | x :: u, v, w' => by
      by_cases hx : x.cancelled = true
      · rcases popWaiter_mid A B hA u v w' with ⟨hpw, hpre⟩ | ⟨y, u2, hyc, hyu, hsub, hpw⟩
        · refine Or.inl ⟨by simpa [popWaiter, hx] using hpw, ?_⟩
          intro z hz
          rcases List.mem_cons.mp hz with rfl | hzu
          · exact hx
          · exact hpre z hzu
        · exact Or.inr ⟨y, u2, hyc, List.mem_cons_of_mem _ hyu, hsub.cons _,
            by simpa [popWaiter, hx] using hpw⟩
      · exact Or.inr ⟨x, u, by simpa using hx, List.mem_cons_self _ _,
          (List.Sublist.refl u).cons _, by simp [popWaiter, hx]⟩

/-- Fairness bookkeeping carried through a sequence of release calls: either
waiter `A` has already been handed a handle, or `B` has not been handed one
and `A` still sits in front of `B` in the waiter deque. -/
def fifoJ (A B : PoolWaiter) (s : PoolState) : Prop :=
  A.wid ∈ s.served ∨
    (B.wid ∉ s.served
      ∧ (∃ u v w', s.waiters = u ++ A :: (v ++ B :: w'))
      ∧ (s.waiters.map PoolWaiter.wid).Nodup)

lemma fifo_step (A B : PoolWaiter) (hA : A.cancelled = false)
    (c : Nat) (a : SessionDefinition) (s : PoolState)
    (hJ : fifoJ A B s) : fifoJ A B (releaseStep c a s) := by
  by_cases hhit : s.in_use.any (fun x => x.identifier = a.identifier) = true
  swap
  · have hstep : releaseStep c a s = s := by simp [releaseStep, hhit]
    rw [hstep]; exact hJ
  rcases hJ with hmem | ⟨hBs, ⟨u, v, w', hw⟩, hnd⟩
  · rcases hpw : popWaiter s.waiters with ⟨ow, ws⟩
    cases ow with
    | some w =>
        left
        have hstep : (releaseStep c a s).served = s.served ++ [w.wid] := by
          simp [releaseStep, hhit, hpw]
        rw [hstep]
        exact List.mem_append_left _ hmem
    | none =>
        left
        have hstep : (releaseStep c a s).served = s.served := by
          simp [releaseStep, hhit, hpw]
        rw [hstep]
        exact hmem
  · rw [hw] at hnd
    rcases popWaiter_mid A B hA u v w' with ⟨hpw, _⟩ | ⟨y, u2, _, hyu, hsub, hpw⟩
    · left
      have hstep : (releaseStep c a s).served = s.served ++ [A.wid] := by
        simp [releaseStep, hhit, hw, hpw]
      rw [hstep]
      exact List.mem_append_right _ (List.mem_cons_self _ _)
    · right
      have hndapp : ((u.map PoolWaiter.wid) ++
          ((A :: (v ++ B :: w')).map PoolWaiter.wid)).Nodup := by
        rw [← List.map_append]
        exact hnd
      have hyB : y.wid ≠ B.wid := by
        intro hEq
        have h1 : y.wid ∈ u.map PoolWaiter.wid := List.mem_map_of_mem _ hyu
        have h2 : B.wid ∈ (A :: (v ++ B :: w')).map PoolWaiter.wid :=
          List.mem_map_of_mem _ (by simp)
        have hdisj := (List.nodup_append.mp hndapp).2.2
        exact hdisj h1 (by rw [hEq]; exact h2)
      have hservstep : (releaseStep c a s).served = s.served ++ [y.wid] := by
        simp [releaseStep, hhit, hw, hpw]
      have hwstep : (releaseStep c a s).waiters = u2 ++ A :: (v ++ B :: w') := by
        simp [releaseStep, hhit, hw, hpw]
      refine ⟨?_, ⟨u2, v, w', hwstep⟩, ?_⟩
      · rw [hservstep]
        simp only [List.mem_append, List.mem_singleton]
        rintro (hin | hin)
        · exact hBs hin
        · exact hyB hin.symm
      · rw [hwstep]
        have hsubw : (u2 ++ A :: (v ++ B :: w')).Sublist (u ++ A :: (v ++ B :: w')) :=
          hsub.append_right _
        exact hnd.sublist (hsubw.map _)

lemma fifo_run (A B : PoolWaiter) (hA : A.cancelled = false) :
    ∀ (ops : List PoolOp) (s : PoolState),
      (∀ op ∈ ops, isRel op = true) → fifoJ A B s → fifoJ A B (poolRun s ops)
  | [], _, _, hJ => hJ
  | op :: ops, s, hrel, hJ => by
      have hop := hrel op (List.mem_cons_self _ _)
      cases op with
      | rel c a =>
          exact fifo_run A B hA ops (releaseStep c a s)
            (fun o ho => hrel o (List.mem_cons_of_mem _ ho))
            (fifo_step A B hA c a s hJ)
      | acqNoWait c => cases hop
      | acq c => cases hop
      | cancelWaiter wid => cases hop

/-- **C3.** FIFO fairness of the pool.  Part one: if waiter `A` blocked in
`acquire` strictly before waiter `B` (that is, `A` precedes `B` in the
waiter deque) and neither is cancelled, then under any subsequent sequence
of `release` calls, whenever `B` has been handed a released handle, `A` has
been handed one as well.  Part two: whenever at least one live waiter
exists and a handle recorded in use is released, the handle is handed to
the longest-waiting live waiter (the first non-cancelled entry of the
deque) and is not returned to the free list. -/
theorem c3_fifo_fairness :
    (∀ (s : PoolState) (ops : List PoolOp) (A B : PoolWaiter)
        (u v w' : List PoolWaiter),
      s.waiters = u ++ A :: (v ++ B :: w') →
      A.cancelled = false → B.cancelled = false →
      (s.waiters.map PoolWaiter.wid).Nodup →
      B.wid ∉ s.served →
      (∀ op ∈ ops, isRel op = true) →
      B.wid ∈ (poolRun s ops).served →
      A.wid ∈ (poolRun s ops).served)
    ∧ (∀ (c : Nat) (a : SessionDefinition) (s : PoolState),
        (∃ x ∈ s.in_use, x.identifier = a.identifier) →
        (∃ w ∈ s.waiters, w.cancelled = false) →
        ∃ pre w ws, s.waiters = pre ++ w :: ws
          ∧ (∀ x ∈ pre, x.cancelled = true)
          ∧ w.cancelled = false
          ∧ (releaseStep c a s).available = s.available
          ∧ (releaseStep c a s).served = s.served ++ [w.wid]) := by
  constructor
  · intro s ops A B u v w' hw hA _ hnd hBs hrel hBfin
    have hJ0 : fifoJ A B s := Or.inr ⟨hBs, ⟨u, v, w', hw⟩, hnd⟩
    rcases fifo_run A B hA ops s hrel hJ0 with hdone | ⟨hBnot, _, _⟩
    · exact hdone
    · exact absurd hBfin hBnot
  · intro c a s hx hlive
    rcases popWaiter_first_live s.waiters hlive with ⟨pre, w, ws, hpw, hdec, hpre, hwc⟩
    have hhit : s.in_use.any (fun x => x.identifier = a.identifier) = true := by
      rcases hx with ⟨x, hxm, hxe⟩
      exact List.any_eq_true.mpr ⟨x, hxm, by simp [hxe]⟩
    refine ⟨pre, w, ws, hdec, hpre, hwc, ?_, ?_⟩
    · simp [releaseStep, hhit, hpw]
    · simp [releaseStep, hhit, hpw]

/-- Witness for C3 at concrete inputs: two handles are held, two live
waiters queue up, and two releases serve them in arrival order. -/
theorem c3_fifo_fairness_witness :
    ((poolRun (initPool [h8882, h8883])
        [PoolOp.acqNoWait 1, PoolOp.acqNoWait 2, PoolOp.acq 3, PoolOp.acq 4]).waiters =
        [] ++ { wid := 0, caller := 3, cancelled := false } ::
          ([] ++ { wid := 1, caller := 4, cancelled := false } :: [])
      ∧ (0 : Nat) ∈ (poolRun (poolRun (initPool [h8882, h8883])
          [PoolOp.acqNoWait 1, PoolOp.acqNoWait 2, PoolOp.acq 3, PoolOp.acq 4])
          [PoolOp.rel 1 h8883, PoolOp.rel 2 h8882]).served)
    ∧ (∃ pre w ws,
        (poolRun (initPool [h8882, h8883])
          [PoolOp.acqNoWait 1, PoolOp.acqNoWait 2, PoolOp.acq 3, PoolOp.acq 4]).waiters =
          pre ++ w :: ws
        ∧ (∀ x ∈ pre, x.cancelled = true)
        ∧ w.cancelled = false
        ∧ (releaseStep 1 h8883 (poolRun (initPool [h8882, h8883])
            [PoolOp.acqNoWait 1, PoolOp.acqNoWait 2, PoolOp.acq 3, PoolOp.acq 4])).available =
          (poolRun (initPool [h8882, h8883])
            [PoolOp.acqNoWait 1, PoolOp.acqNoWait 2, PoolOp.acq 3, PoolOp.acq 4]).available
        ∧ (releaseStep 1 h8883 (poolRun (initPool [h8882, h8883])
            [PoolOp.acqNoWait 1, PoolOp.acqNoWait 2, PoolOp.acq 3, PoolOp.acq 4])).served =
          (poolRun (initPool [h8882, h8883])
            [PoolOp.acqNoWait 1, PoolOp.acqNoWait 2, PoolOp.acq 3, PoolOp.acq 4]).served ++ [w.wid]) :=
  ⟨⟨by decide,
    c3_fifo_fairness.1 _ [PoolOp.rel 1 h8883, PoolOp.rel 2 h8882]
      { wid := 0, caller := 3, cancelled := false }
      { wid := 1, caller := 4, cancelled := false } [] [] []
      (by decide) rfl rfl (by decide) (by decide) (by decide) (by decide)⟩,
    c3_fifo_fairness.2 1 h8883 _ (by decide) (by decide)⟩

/-- One decoded entry of a `TestRun.log` JSON list (`append_run_log_entry`
writes objects with a timestamp, a `type` level and a message).  The
embedding keeps the decoded list; the database column stores its JSON
encoding. -/
structure LogEntry where
  timestamp : Nat
  type : String
  message : String
deriving DecidableEq

/-- Row of the `test_runs` table (`backend/app/models/test_run.py`).
`metrics` models the decoded metrics JSON object as a key/value list. -/
structure TestRun where
  id : Nat
  test_case_id : Nat
  model_config_id : Option Nat
  status : String
  result : Option String
  prompt : String
  server_url : Option String
  xpra_url : Option String
  task_id : Option String
  log : List LogEntry
  metrics : List (String × Nat)
  created_at : Nat
  updated_at : Nat
  started_at : Option Nat
  completed_at : Option Nat
deriving DecidableEq

/-- `append_run_log_entry`: append one entry and retain only the newest 200
(`log_entries[-200:]`), touching `updated`; the enclosing session commit
always runs. -/
def appendRunLogEntry (now : Nat) (message level : String) (run : TestRun) : TestRun :=
  let entries := run.log ++ [{ timestamp := now, type := level, message := message }]
  { run with log := entries.drop (entries.length - 200), updated_at := now }

/-- The status block of `update_manual_run` (`test_runs.py` lines 158-168):
adjust `status`, touch `updated`, stamp `started` on the first transition
into `running`, stamp `completed` on every terminal-status write.  The
boolean is the `changed` flag. -/
def statusUpd (now : Nat) (status : Option String) (run : TestRun) : TestRun × Bool :=
  match status with
  | none => (run, false)
  | some st =>
      let pa : TestRun × Bool :=
        if run.status = st then (run, false) else ({ run with status := st }, true)
      let rb : TestRun := { pa.1 with updated_at := now }
      let pc : TestRun × Bool :=
        if st = "running" ∧ rb.started_at = none
        then ({ rb with started_at := some now }, true)
        else (rb, pa.2)
      if st = "completed" ∨ st = "failed" ∨ st = "cancelled"
      then ({ pc.1 with completed_at := some now }, true)
      else pc

/-- The `server_url` block of `update_manual_run` (lines 170-173). -/
def serverUrlUpd (now : Nat) (server_url : Option String) (p : TestRun × Bool) :
    TestRun × Bool :=
  match server_url with
  | none => p
  | some u =>
      if p.1.server_url = some u then p
      else ({ p.1 with server_url := some u, updated_at := now }, true)

/-- The `xpra_url` block of `update_manual_run` (lines 175-178). -/
def xpraUrlUpd (now : Nat) (xpra_url : Option String) (p : TestRun × Bool) :
    TestRun × Bool :=
  match xpra_url with
  | none => p
  | some u =>
      if p.1.xpra_url = some u then p
      else ({ p.1 with xpra_url := some u, updated_at := now }, true)

/-- The `result` block of `update_manual_run` (lines 180-184): a result
change also stamps `completed`. -/
def resultUpd (now : Nat) (result : Option String) (p : TestRun × Bool) :
    TestRun × Bool :=
  match result with
  | none => p
  | some res =>
      if p.1.result = some res then p
      else ({ p.1 with result := some res, completed_at := some now, updated_at := now }, true)

/-- `update_manual_run` applied to a fetched row: the four sequential
update blocks, returning the mutated row and the `changed` flag. -/
def updateManualRun (now : Nat) (status server_url xpra_url result : Option String)
    (run : TestRun) : TestRun × Bool :=
  resultUpd now result (xpraUrlUpd now xpra_url (serverUrlUpd now server_url
    (statusUpd now status run)))

/-- The committed effect of `update_manual_run` on the fetched row: the
session commit runs only when `changed` is set, otherwise the in-memory
mutations are discarded when the session closes. -/
def updateManualRunApply (now : Nat) (status server_url xpra_url result : Option String)
    (run : TestRun) : TestRun :=
  let p := updateManualRun now status server_url xpra_url result run
  if p.2 then p.1 else run

/-- `update_manual_run` at the table level: `session.get(TestRun, run_id)`
returning `None` makes the helper return with no change. -/
def updateManualRunTable (now : Nat) (run_id : Nat)
    (status server_url xpra_url result : Option String)
    (table : List TestRun) : List TestRun :=
  match table.find? (fun r => r.id = run_id) with
  | none => table
  | some _ =>
      table.map (fun r =>
        if r.id = run_id
        then updateManualRunApply now status server_url xpra_url result r
        else r)

/-- `log_manual_run` at the table level: a missing row is a no-op,
otherwise one log entry is appended to the fetched row. -/
def logManualRunTable (now : Nat) (run_id : Nat) (message level : String)
    (table : List TestRun) : List TestRun :=
  match table.find? (fun r => r.id = run_id) with
  | none => table
  | some _ =>
      table.map (fun r =>
        if r.id = run_id then appendRunLogEntry now message level r else r)

/-- The `status.in_(["queued", "running", "pending"])` filter of
`resume_queued_runs`. -/
def scannedStatus (r : TestRun) : Bool :=
  r.status == "queued" || r.status == "running" || r.status == "pending"

/-- The reset applied by `resume_queued_runs` to each scanned row: rows
found `running` or `pending` go back to `queued` with `started` and the
task-correlation id cleared and `updated` touched. -/
def resumeReset (now : Nat) (r : TestRun) : TestRun :=
  if r.status = "running" ∨ r.status = "pending" then
    { r with status := "queued", started_at := none, task_id := none, updated_at := now }
  else r

/-- `resume_queued_runs`: scan the ledger for rows with status in
`{queued, running, pending}` (in the order the query returns them — the
query requests no ordering), reset interrupted rows, commit, then push
every scanned row id onto the run queue in scan order.  Returns the new
table and the queue contents. -/
def resumeQueuedRuns (now : Nat) (table : List TestRun) : List TestRun × List Nat :=
  (table.map (fun r => if scannedStatus r then resumeReset now r else r),
   (table.filter scannedStatus).map (fun r => r.id))

lemma scannedStatus_iff (r : TestRun) :
    scannedStatus r = true ↔
      (r.status = "queued" ∨ r.status = "running" ∨ r.status = "pending") := by
  simp [scannedStatus, or_assoc]

/-- A sample ledger row used in concrete counterexamples and witnesses. -/
def sampleRun (rid : Nat) (st : String) : TestRun :=
  { id := rid
    test_case_id := 1
    model_config_id := none
    status := st
    result := none
    prompt := "p"
    server_url := none
    xpra_url := none
    task_id := none
    log := []
    metrics := []
    created_at := 0
    updated_at := 0
    started_at := none
    completed_at := none }

/-- **C4 (counterexample).** The recovery scan issues no ordering clause,
so the run queue is filled in scan order, not necessarily in ascending id
order: a ledger scan returning ids 2 then 1 (both `queued`) yields the
queue `[2, 1]`, which is not ascending. -/
theorem c4_queue_not_ascending :
    (resumeQueuedRuns 7 [sampleRun 2 "queued", sampleRun 1 "queued"]).2 = [2, 1]
    ∧ ¬ List.Sorted (· ≤ ·)
        (resumeQueuedRuns 7 [sampleRun 2 "queued", sampleRun 1 "queued"]).2 := by
  have hq : (resumeQueuedRuns 7 [sampleRun 2 "queued", sampleRun 1 "queued"]).2 = [2, 1] := by
    decide
  refine ⟨hq, ?_⟩
  rw [hq]
  intro h
  have h21 := (List.sorted_cons.mp h).1 1 (by simp)
  omega

/-- **C4 (amended).** Startup recovery: after `resume_queued_runs`, no row
is left `running` or `pending`; every row that was `running` or `pending`
has become `queued` with `started` and the task-correlation id cleared and
`updated` touched; the run queue contains exactly the scanned row ids
(each pushed exactly once when ids are unique), in the order the ledger
scan returned the rows — ascending id order exactly when the scan itself
returns rows in ascending id order, since the query requests no
ordering. -/
theorem c4_startup_recovery_scan_order (now : Nat) (table : List TestRun) :
    (∀ r2 ∈ (resumeQueuedRuns now table).1, r2.status ≠ "running" ∧ r2.status ≠ "pending")
    ∧ (∀ r ∈ table, (r.status = "running" ∨ r.status = "pending") →
        ∃ r2 ∈ (resumeQueuedRuns now table).1,
          r2.id = r.id ∧ r2.status = "queued" ∧ r2.started_at = none
          ∧ r2.task_id = none ∧ r2.updated_at = now)
    ∧ (∀ r ∈ table, scannedStatus r = true → r.id ∈ (resumeQueuedRuns now table).2)
    ∧ (∀ i ∈ (resumeQueuedRuns now table).2, ∃ r ∈ table, scannedStatus r = true ∧ r.id = i)
    ∧ ((table.map (fun r => r.id)).Nodup → (resumeQueuedRuns now table).2.Nodup)
    ∧ (List.Sorted (· < ·) (table.map (fun r => r.id)) →
        List.Sorted (· < ·) (resumeQueuedRuns now table).2) := by
  refine ⟨?_, ?_, ?_, ?_, ?_, ?_⟩
  · intro r2 h
    rcases List.mem_map.mp h with ⟨r, hr, rfl⟩
    by_cases hs : scannedStatus r = true
    · by_cases hrp : r.status = "running" ∨ r.status = "pending"
      · simp [hs, resumeReset, hrp]
      · push_neg at hrp
        simp [hs, resumeReset, hrp.1, hrp.2]
    · have hns : ¬ (r.status = "queued" ∨ r.status = "running" ∨ r.status = "pending") := by
        rw [← scannedStatus_iff]
        simpa using hs
      push_neg at hns
      simp only [Bool.not_eq_true] at hs
      simp [hs]
      exact ⟨hns.2.1, hns.2.2⟩
  · intro r hr hrp
    have hs : scannedStatus r = true := (scannedStatus_iff r).mpr (Or.inr hrp)
    refine ⟨resumeReset now r, List.mem_map.mpr ⟨r, hr, by simp [hs]⟩, ?_⟩
    simp [resumeReset, hrp]
  · intro r hr hs
    exact List.mem_map.mpr ⟨r, List.mem_filter.mpr ⟨hr, hs⟩, rfl⟩
  · intro i hi
    rcases List.mem_map.mp hi with ⟨r, hrf, rfl⟩
    have hm := List.mem_filter.mp hrf
    exact ⟨r, hm.1, hm.2, rfl⟩
  · intro h
    exact h.sublist ((List.filter_sublist table).map _)
  · intro h
    exact List.Pairwise.sublist ((List.filter_sublist table).map _) h

/-- Witness for C4 (amended) at a concrete ledger: rows 1 `running`,
2 `pending`, 3 `queued`, scanned in ascending id order. -/
theorem c4_startup_recovery_scan_order_witness :
    (sampleRun 1 "running" ∈
        [sampleRun 1 "running", sampleRun 2 "pending", sampleRun 3 "queued"]
      ∧ ((sampleRun 1 "running").status = "running"
          ∨ (sampleRun 1 "running").status = "pending")
      ∧ ([sampleRun 1 "running", sampleRun 2 "pending",
            sampleRun 3 "queued"].map (fun r => r.id)).Nodup)
    ∧ (∃ r2 ∈ (resumeQueuedRuns 5
          [sampleRun 1 "running", sampleRun 2 "pending", sampleRun 3 "queued"]).1,
        r2.id = (sampleRun 1 "running").id ∧ r2.status = "queued"
        ∧ r2.started_at = none ∧ r2.task_id = none ∧ r2.updated_at = 5)
    ∧ (resumeQueuedRuns 5
        [sampleRun 1 "running", sampleRun 2 "pending", sampleRun 3 "queued"]).2.Nodup :=
  ⟨⟨by decide, by decide, by decide⟩,
    (c4_startup_recovery_scan_order 5
      [sampleRun 1 "running", sampleRun 2 "pending", sampleRun 3 "queued"]).2.1
      (sampleRun 1 "running") (by decide) (by decide),
    (c4_startup_recovery_scan_order 5
      [sampleRun 1 "running", sampleRun 2 "pending", sampleRun 3 "queued"]).2.2.2.2.1
      (by decide)⟩

lemma statusUpd_none (now : Nat) (run : TestRun) : statusUpd now none run = (run, false) := rfl

lemma statusUpd_started (now : Nat) (st? : Option String) (run : TestRun) :
    (statusUpd now st? run).1.started_at = run.started_at
    ∨ (run.started_at = none ∧ st? = some "running"
       ∧ (statusUpd now st? run).1.started_at = some now) := by
  cases st? with
  | none => exact Or.inl rfl
  | some st =>
      by_cases h1 : run.status = st <;>
        by_cases h2 : st = "running" <;>
          by_cases h3 : run.started_at = none <;>
            by_cases h4 : st = "completed" ∨ st = "failed" ∨ st = "cancelled" <;>
              simp_all [statusUpd]

lemma statusUpd_result (now : Nat) (st? : Option String) (run : TestRun) :
    (statusUpd now st? run).1.result = run.result := by
  cases st? with
  | none => rfl
  | some st =>
      simp only [statusUpd]
      split_ifs <;> simp

lemma statusUpd_completed_terminal (now : Nat) (st : String) (run : TestRun)
    (hterm : st = "completed" ∨ st = "failed" ∨ st = "cancelled") :
    (statusUpd now (some st) run).1.completed_at = some now
    ∧ (statusUpd now (some st) run).2 = true := by
  simp only [statusUpd]
  rw [if_pos hterm]
  exact ⟨rfl, rfl⟩

lemma statusUpd_completed_nonterminal (now : Nat) (st : String) (run : TestRun)
    (hterm : ¬ (st = "completed" ∨ st = "failed" ∨ st = "cancelled")) :
    (statusUpd now (some st) run).1.completed_at = run.completed_at := by
  simp only [statusUpd]
  rw [if_neg hterm]
  split_ifs <;> simp

lemma serverUrlUpd_fields (now : Nat) (su? : Option String) (p : TestRun × Bool) :
    (serverUrlUpd now su? p).1.started_at = p.1.started_at
    ∧ (serverUrlUpd now su? p).1.completed_at = p.1.completed_at
    ∧ (serverUrlUpd now su? p).1.result = p.1.result
    ∧ (p.2 = true → (serverUrlUpd now su? p).2 = true) := by
  cases su? with
  | none => exact ⟨rfl, rfl, rfl, fun h => h⟩
  | some u =>
      simp only [serverUrlUpd]
      split_ifs with h
      · exact ⟨rfl, rfl, rfl, fun hh => hh⟩
      · exact ⟨rfl, rfl, rfl, fun _ => rfl⟩

lemma xpraUrlUpd_fields (now : Nat) (xu? : Option String) (p : TestRun × Bool) :
    (xpraUrlUpd now xu? p).1.started_at = p.1.started_at
    ∧ (xpraUrlUpd now xu? p).1.completed_at = p.1.completed_at
    ∧ (xpraUrlUpd now xu? p).1.result = p.1.result
    ∧ (p.2 = true → (xpraUrlUpd now xu? p).2 = true) := by
  cases xu? with
  | none => exact ⟨rfl, rfl, rfl, fun h => h⟩
  | some u =>
      simp only [xpraUrlUpd]
      split_ifs with h
      · exact ⟨rfl, rfl, rfl, fun hh => hh⟩
      · exact ⟨rfl, rfl, rfl, fun _ => rfl⟩

lemma resultUpd_started (now : Nat) (res? : Option String) (p : TestRun × Bool) :
    (resultUpd now res? p).1.started_at = p.1.started_at := by
  cases res? with
  | none => rfl
  | some res =>
      simp only [resultUpd]
      split_ifs <;> simp

lemma resultUpd_changed_mono (now : Nat) (res? : Option String) (p : TestRun × Bool)
    (h : p.2 = true) : (resultUpd now res? p).2 = true := by
  cases res? with
  | none => exact h
  | some res =>
      simp only [resultUpd]
      split_ifs <;> simp [h]

lemma resultUpd_completed (now : Nat) (res? : Option String) (p : TestRun × Bool) :
    (resultUpd now res? p).1.completed_at = p.1.completed_at
    ∨ (resultUpd now res? p).1.completed_at = some now := by
  cases res? with
  | none => exact Or.inl rfl
  | some res =>
      simp only [resultUpd]
      split_ifs <;> simp

lemma resultUpd_set (now : Nat) (res : String) (p : TestRun × Bool)
    (hne : ¬ p.1.result = some res) :
    (resultUpd now (some res) p).1.completed_at = some now
    ∧ (resultUpd now (some res) p).2 = true := by
  simp only [resultUpd]
  rw [if_neg hne]
  exact ⟨rfl, rfl⟩

lemma resultUpd_nochange (now : Nat) (res : String) (p : TestRun × Bool)
    (heq : p.1.result = some res) : resultUpd now (some res) p = p := by
  simp only [resultUpd]
  rw [if_pos heq]

/-- **C5 (counterexample).** The `completed` timestamp is not written
exactly once: a second write of the same terminal status re-stamps
`completed` with the later clock value (the terminal branch of
`update_manual_run` sets it unconditionally), so a repeated terminal-status
write changes it from `some 5` to `some 9`. -/
theorem c5_completed_restamped :
    (updateManualRunApply 5 (some "failed") none none none
        { sampleRun 1 "running" with started_at := some 1 }).completed_at = some 5
    ∧ (updateManualRunApply 9 (some "failed") none none none
        (updateManualRunApply 5 (some "failed") none none none
          { sampleRun 1 "running" with started_at := some 1 })).completed_at = some 9
    ∧ ((9 : Nat) ≠ 5) := by
  decide

/-- **C5 (amended).** Run timestamp behaviour of `update_manual_run`:
`started` is set at most once, at the first transition into `running`, and
is never cleared or overwritten once set; `completed` is stamped with the
current clock on every terminal-status write and on every write that
changes `result` (so repeated terminal writes and later result writes
refresh it), and it is left untouched when the write carries no terminal
status and no result change. -/
theorem c5_run_timestamps (now : Nat) (st? su? xu? res? : Option String) (run : TestRun) :
    ((updateManualRunApply now st? su? xu? res? run).started_at = run.started_at
      ∨ (run.started_at = none ∧ st? = some "running"
         ∧ (updateManualRunApply now st? su? xu? res? run).started_at = some now))
    ∧ (∀ st, st? = some st → (st = "completed" ∨ st = "failed" ∨ st = "cancelled") →
        (updateManualRunApply now st? su? xu? res? run).completed_at = some now)
    ∧ (∀ res, res? = some res → ¬ run.result = some res →
        (updateManualRunApply now st? su? xu? res? run).completed_at = some now)
    ∧ ((∀ st, st? = some st → ¬ (st = "completed" ∨ st = "failed" ∨ st = "cancelled")) →
       (∀ res, res? = some res → run.result = some res) →
       (updateManualRunApply now st? su? xu? res? run).completed_at = run.completed_at) := by
  have hSf := serverUrlUpd_fields now su? (statusUpd now st? run)
  have hXf := xpraUrlUpd_fields now xu? (serverUrlUpd now su? (statusUpd now st? run))
  have hresult2 : (xpraUrlUpd now xu? (serverUrlUpd now su? (statusUpd now st? run))).1.result
      = run.result := by
    rw [hXf.2.2.1, hSf.2.2.1, statusUpd_result]
  by_cases hch : (updateManualRun now st? su? xu? res? run).2 = true
  case neg =>
    have happly : updateManualRunApply now st? su? xu? res? run = run := by
      simp only [updateManualRunApply]
      rw [if_neg hch]
    refine ⟨Or.inl (by rw [happly]), ?_, ?_, ?_⟩
    · intro st hst hterm
      exfalso
      apply hch
      subst hst
      apply resultUpd_changed_mono
      apply hXf.2.2.2
      apply hSf.2.2.2
      exact (statusUpd_completed_terminal now st run hterm).2
    · intro res hres hne
      exfalso
      apply hch
      subst hres
      have := resultUpd_set now res
        (xpraUrlUpd now xu? (serverUrlUpd now su? (statusUpd now st? run)))
        (by rw [hresult2]; exact hne)
      exact this.2
    · intro _ _
      rw [happly]
  case pos =>
    have happly : updateManualRunApply now st? su? xu? res? run =
        (updateManualRun now st? su? xu? res? run).1 := by
      simp only [updateManualRunApply]
      rw [if_pos hch]
    rw [happly]
    refine ⟨?_, ?_, ?_, ?_⟩
    · have hstarted : (updateManualRun now st? su? xu? res? run).1.started_at
          = (statusUpd now st? run).1.started_at := by
        simp only [updateManualRun]
        rw [resultUpd_started, hXf.1, hSf.1]
      rw [hstarted]
      exact statusUpd_started now st? run
    · intro st hst hterm
      subst hst
      have hc0 := (statusUpd_completed_terminal now st run hterm).1
      have hc2 : (xpraUrlUpd now xu? (serverUrlUpd now su?
          (statusUpd now (some st) run))).1.completed_at = some now := by
        rw [hXf.2.1, hSf.2.1, hc0]
      rcases resultUpd_completed now res?
          (xpraUrlUpd now xu? (serverUrlUpd now su? (statusUpd now (some st) run))) with hkeep | hnow
      · simp only [updateManualRun]
        rw [hkeep, hc2]
      · simp only [updateManualRun]
        rw [hnow]
    · intro res hres hne
      subst hres
      exact (resultUpd_set now res _ (by rw [hresult2]; exact hne)).1
    · intro hnoterm hnores
      have hc0 : (statusUpd now st? run).1.completed_at = run.completed_at := by
        cases hst : st? with
        | none => rw [statusUpd_none]
        | some st => exact statusUpd_completed_nonterminal now st run (hnoterm st hst)
      have hc2 : (xpraUrlUpd now xu? (serverUrlUpd now su?
          (statusUpd now st? run))).1.completed_at = run.completed_at := by
        rw [hXf.2.1, hSf.2.1, hc0]
      cases hres : res? with
      | none =>
          simp only [updateManualRun, hres]
          exact hc2
      | some res =>
          have hnc := resultUpd_nochange now res
            (xpraUrlUpd now xu? (serverUrlUpd now su? (statusUpd now st? run)))
            (by rw [hresult2]; exact hnores res hres)
          simp only [updateManualRun, hres]
          rw [hnc]
          exact hc2

/-- Witness for C5 (amended) at a concrete input: the first transition into
`running` stamps `started`, then a `failed` write stamps `completed`. -/
theorem c5_run_timestamps_witness :
    ((sampleRun 1 "queued").started_at = none
      ∧ ((updateManualRunApply 4 (some "running") none none none
          (sampleRun 1 "queued")).started_at = (sampleRun 1 "queued").started_at
        ∨ ((sampleRun 1 "queued").started_at = none
            ∧ (some "running" : Option String) = some "running"
            ∧ (updateManualRunApply 4 (some "running") none none none
                (sampleRun 1 "queued")).started_at = some 4)))
    ∧ ((some "failed" : Option String) = some "failed"
      ∧ ("failed" = "completed" ∨ "failed" = "failed" ∨ "failed" = "cancelled")
      ∧ (updateManualRunApply 7 (some "failed") none none none
          (sampleRun 1 "running")).completed_at = some 7) :=
  ⟨⟨by decide,
    (c5_run_timestamps 4 (some "running") none none none (sampleRun 1 "queued")).1⟩,
    ⟨rfl, by decide,
      (c5_run_timestamps 7 (some "failed") none none none (sampleRun 1 "running")).2.1
        "failed" rfl (by decide)⟩⟩

/-- **C10.** Ledger bookkeeping against a missing run id: when
`session.get(TestRun, run_id)` finds no row, both `update_manual_run` and
`log_manual_run` return normally without raising, creating, or modifying
anything. -/
theorem c10_missing_run_noop (now run_id : Nat) (st? su? xu? res? : Option String)
    (msg lvl : String) (table : List TestRun)
    (h : table.find? (fun r => r.id = run_id) = none) :
    updateManualRunTable now run_id st? su? xu? res? table = table
    ∧ logManualRunTable now run_id msg lvl table = table := by
  constructor <;> simp [updateManualRunTable, logManualRunTable, h]

/-- Witness for C10: a one-row table and an unknown run id. -/
theorem c10_missing_run_noop_witness :
    ([sampleRun 1 "queued"].find? (fun r => r.id = 99) = none)
    ∧ updateManualRunTable 5 99 (some "failed") none none (some "error")
        [sampleRun 1 "queued"] = [sampleRun 1 "queued"]
    ∧ logManualRunTable 5 99 "message" "info"
        [sampleRun 1 "queued"] = [sampleRun 1 "queued"] :=
  ⟨by decide,
    c10_missing_run_noop 5 99 (some "failed") none none (some "error")
      "message" "info" [sampleRun 1 "queued"] (by decide)⟩

/-- Outcome environment for one execution of `process_test_run`
(`test_runs.py` lines 198-300).  Each boolean records whether the
corresponding awaited external effect (a database commit or a ledger log
write) completes without raising; `stream_ok` covers the whole
`async for` over `stream_agent_events` including the per-event log
appends, and `fail_path_ok` covers the writes performed inside the
`except` handler. -/
structure WorkerEnv where
  nowait_allocation : Option SessionDefinition
  pending_commit_ok : Bool
  pending_log_ok : Bool
  assign_commit_ok : Bool
  assign_log_ok : Bool
  start_log_ok : Bool
  stream_ok : Bool
  fail_path_ok : Bool
  done_commit_ok : Bool
deriving DecidableEq

/-- What one `process_test_run` invocation did: whether a session handle
was acquired from the pool, whether it was released back, and whether an
exception escaped the function. -/
structure WorkerOutcome where
  acquired : Bool
  released : Bool
  raised : Bool
deriving DecidableEq

/-- `process_test_run` after a session handle has been obtained
(lines 229-300).  Lines 229-247 (the status/endpoint commit and the two
assignment log writes) run before the `try`/`finally`, so an exception
there escapes without the handle ever being released; from the `try`
onwards the `finally` releases the handle on every path. -/
def processAfterAcquire (env : WorkerEnv) : WorkerOutcome :=
  if ¬ env.assign_commit_ok then ⟨true, false, true⟩
  else if ¬ env.assign_log_ok then ⟨true, false, true⟩
  else if ¬ env.start_log_ok then ⟨true, false, true⟩
  else if ¬ env.stream_ok then ⟨true, true, !env.fail_path_ok⟩
  else ⟨true, true, !env.done_commit_ok⟩

/-- `process_test_run` (lines 198-300): missing row and non-queued /
non-pending rows are skipped; a missing test case fails the run without
touching the pool; otherwise a handle is obtained by `acquire_nowait` or,
after pending bookkeeping, by a blocking `acquire`. -/
def processTestRun (env : WorkerEnv) (run : Option TestRun) (caseExists : Bool) :
    WorkerOutcome :=
  match run with
  | none => ⟨false, false, false⟩
  | some r =>
      if ¬ (r.status = "queued" ∨ r.status = "pending") then ⟨false, false, false⟩
      else if ¬ caseExists then ⟨false, false, false⟩
      else if env.nowait_allocation.isSome then processAfterAcquire env
      else if ¬ env.pending_commit_ok then ⟨false, false, true⟩
      else if ¬ env.pending_log_ok then ⟨false, false, true⟩
      else processAfterAcquire env

/-- Environment where every external effect succeeds and a handle is free. -/
def envNormal : WorkerEnv :=
  { nowait_allocation := some h8882
    pending_commit_ok := true
    pending_log_ok := true
    assign_commit_ok := true
    assign_log_ok := true
    start_log_ok := true
    stream_ok := true
    fail_path_ok := true
    done_commit_ok := true }

/-- Environment where the Agent Event Source raises during streaming. -/
def envStreamError : WorkerEnv := { envNormal with stream_ok := false }

/-- Environment where the ledger commit between acquisition and streaming
raises. -/
def envAssignCommitFails : WorkerEnv := { envNormal with assign_commit_ok := false }

/-- **C6.** Session release on worker error paths.  The handle is released
on normal stream exhaustion and on an Agent Event Source exception (the
`finally` covers both), but an exception raised by the ledger writes
between acquisition and the start of streaming (e.g. the commit recording
the assignment) escapes before the `try`/`finally` is entered: the run
worker acquired the handle and never released it, permanently shrinking
the pool — contradicting the claim that release happens on every error
path after acquisition. -/
theorem c6_release_on_error_paths :
    (processTestRun envNormal (some (sampleRun 1 "queued")) true).released = true
    ∧ (processTestRun envStreamError (some (sampleRun 1 "queued")) true).released = true
    ∧ (processTestRun envStreamError (some (sampleRun 1 "queued")) true).raised = false
    ∧ (processTestRun envAssignCommitFails (some (sampleRun 1 "queued")) true).acquired = true
    ∧ (processTestRun envAssignCommitFails (some (sampleRun 1 "queued")) true).released = false
    ∧ (processTestRun envAssignCommitFails (some (sampleRun 1 "queued")) true).raised = true := by
  decide

/-- Environment for the finalization block of `_agent_worker`
(`tasks.py` lines 170-204): whether the task is linked to a ledger run and
holds a session, and whether each finalization step completes without
raising. -/
structure FinalizeEnv where
  has_run_id : Bool
  has_session : Bool
  finalize_ok : Bool
  except_log_ok : Bool
  persist_ok : Bool
  update_run_ok : Bool
deriving DecidableEq

/-- What the finalization block did: whether the assigned session handle
was released, whether the task was removed from the live `_tasks`
registry, and whether an exception escaped the block. -/
structure FinalizeOutcome where
  released : Bool
  removed : Bool
  raised : Bool
deriving DecidableEq

/-- The `finally` block of `_agent_worker` (lines 170-204).  On the
successful `finalize_task` path, `persist_log_file` is wrapped in
`suppress(Exception)` but the `update_manual_run(result=...)` ledger write
is not: if it raises, the exception propagates out of the `finally`,
skipping both the session release (line 200) and the registry removal
(line 203).  On the failing `finalize_task` path the handler's own
`log_manual_run` write is likewise unprotected. -/
def agentWorkerFinalize (env : FinalizeEnv) : FinalizeOutcome :=
  if env.finalize_ok then
    if env.has_run_id && !env.update_run_ok then ⟨false, false, true⟩
    else ⟨env.has_session, true, false⟩
  else
    if env.has_run_id && !env.except_log_ok then ⟨false, false, true⟩
    else ⟨env.has_session, true, false⟩

/-- **C7.** Best-effort ad-hoc finalization.  The session is released and
the task removed when everything succeeds, when log-file persistence fails
(suppressed) and when the Run Registry finalize write fails (handled by
the `except` branch); but when the Run Ledger result update raises, the
exception escapes the `finally` block and the session is NOT released and
the task is NOT removed from the live registry — contradicting the
claim. -/
theorem c7_finalize_best_effort :
    agentWorkerFinalize
      { has_run_id := true, has_session := true, finalize_ok := true,
        except_log_ok := true, persist_ok := true, update_run_ok := true } =
      { released := true, removed := true, raised := false }
    ∧ agentWorkerFinalize
      { has_run_id := true, has_session := true, finalize_ok := true,
        except_log_ok := true, persist_ok := false, update_run_ok := true } =
      { released := true, removed := true, raised := false }
    ∧ agentWorkerFinalize
      { has_run_id := true, has_session := true, finalize_ok := false,
        except_log_ok := true, persist_ok := true, update_run_ok := true } =
      { released := true, removed := true, raised := false }
    ∧ agentWorkerFinalize
      { has_run_id := true, has_session := true, finalize_ok := true,
        except_log_ok := true, persist_ok := true, update_run_ok := false } =
      { released := false, removed := false, raised := true } := by
  decide

/-- The cancel-relevant view of a `ManagedTask`: whether its execution
coroutine was started (`managed_task.task is not None`) and whether that
coroutine has finished (`managed_task.task.done()`). -/
structure ManagedTaskView where
  has_task : Bool
  task_done : Bool
deriving DecidableEq

/-- The condition `cancel_task` reports to its caller. -/
inductive CancelOutcome
  | notFound
  | cancelledBeforeStart
  | completedStatus
  | cancelledRunning
deriving DecidableEq

/-- `cancel_task` (`tasks.py` lines 404-437): an id absent from the live
`_tasks` registry yields HTTP 404 "Task not found or already completed.";
a task whose execution coroutine was never started is cancelled via the
waiter path; a task whose coroutine is already done yields
`{"status": "completed"}`; otherwise the coroutine is cancelled. -/
def cancelTask (tasks : List (String × ManagedTaskView)) (task_id : String) :
    CancelOutcome :=
  match tasks.find? (fun p => p.1 = task_id) with
  | none => CancelOutcome.notFound
  | some p =>
      if ¬ p.2.has_task then CancelOutcome.cancelledBeforeStart
      else if p.2.task_done then CancelOutcome.completedStatus
      else CancelOutcome.cancelledRunning

/-- **C8 (counterexample).** A task that has reached a terminal state but
is still present in the live registry (reachable: when the ledger result
update raises during finalization, the registry removal is skipped while
the coroutine finishes) is reported as `{"status": "completed"}` by
`cancel_task`, not as the distinct "not found" condition the claim
requires for every terminal task. -/
theorem c8_cancel_terminal_still_registered :
    cancelTask [("t1", { has_task := true, task_done := true })] "t1" =
      CancelOutcome.completedStatus
    ∧ CancelOutcome.completedStatus ≠ CancelOutcome.notFound := by
  decide

/-- **C8 (amended).** `cancel_task` reports the distinct "not found"
condition (HTTP 404, "Task not found or already completed.") exactly for
task ids absent from the live registry — which covers unknown ids and
terminal tasks whose finalization removed them; a terminal task still
present in the registry with a finished coroutine instead reports
`{"status": "completed"}`. -/
theorem c8_cancel_unknown_or_reaped (tasks : List (String × ManagedTaskView))
    (tid : String) :
    (tasks.find? (fun p => p.1 = tid) = none →
      cancelTask tasks tid = CancelOutcome.notFound)
    ∧ (∀ p, tasks.find? (fun p => p.1 = tid) = some p →
        p.2.has_task = true → p.2.task_done = true →
        cancelTask tasks tid = CancelOutcome.completedStatus) := by
  constructor
  · intro h
    simp [cancelTask, h]
  · intro p hp h1 h2
    simp [cancelTask, hp, h1, h2]

/-- Witness for C8 (amended): an empty registry and an unknown id. -/
theorem c8_cancel_unknown_or_reaped_witness :
    (([] : List (String × ManagedTaskView)).find? (fun p => p.1 = "t9") = none)
    ∧ cancelTask [] "t9" = CancelOutcome.notFound :=
  ⟨rfl, (c8_cancel_unknown_or_reaped [] "t9").1 rfl⟩

/-- The opening brace character. -/
def lbrace : Char := Char.ofNat 123

/-- The closing brace character. -/
def rbrace : Char := Char.ofNat 125

/-- The placeholder token the source tests with `"\x7btask\x7d" in template`. -/
def taskPlaceholder : String := "\x7btask\x7d"

/-- Exceptions `str.format` can raise on the inputs modelled here:
`KeyError` for an unknown keyword field, `IndexError` for an automatic or
positional field (no positional arguments are passed), `ValueError` for
unmatched braces. -/
inductive FmtError
  | keyError
  | indexError
  | valueError
deriving DecidableEq

instance {ε α : Type} [DecidableEq ε] [DecidableEq α] : DecidableEq (Except ε α) :=
  fun a b =>
    match a, b with
    | Except.ok x, Except.ok y =>
        if h : x = y then isTrue (by rw [h]) else isFalse (fun hh => h (by injection hh))
    | Except.ok _, Except.error _ => isFalse (fun h => Except.noConfusion h)
    | Except.error _, Except.ok _ => isFalse (fun h => Except.noConfusion h)
    | Except.error e, Except.error f =>
        if h : e = f then isTrue (by rw [h]) else isFalse (fun hh => h (by injection hh))

/-- Resolution of one replacement-field name of
`template.format(task=task_text)`, for plain field names (letters, digits
and underscores, no attribute/index access, no conversion, no format
spec): the name `task` substitutes the task text, an empty or all-digit
name is an automatic/positional field and raises `IndexError`, any other
name is an unknown keyword and raises `KeyError`. -/
def fieldSubst (task : List Char) (field : List Char) : Except FmtError (List Char) :=
  if field = "task".data then Except.ok task
  else if field = [] ∨ field.all Char.isDigit then Except.error FmtError.indexError
  else Except.error FmtError.keyError

/-- Scanner state of the `str.format` parser: inside literal text, right
after an opening brace, right after a closing brace, or inside a
replacement field with the accumulated field name. -/
inductive FMode
  | lit
  | openB
  | closeB
  | field (acc : List Char)

/-- One-pass model of CPython `str.format` restricted to plain named
fields: doubled braces are unescaped to single braces, `\x7bname\x7d`
fields are resolved by `fieldSubst`, a lone brace or an unterminated
field raises `ValueError`. -/
def fmtRun (task : List Char) : FMode → List Char → Except FmtError (List Char)
  | FMode.lit, [] => Except.ok []
  | FMode.openB, [] => Except.error FmtError.valueError
  | FMode.closeB, [] => Except.error FmtError.valueError
  | FMode.field _, [] => Except.error FmtError.valueError
  | FMode.lit, c :: rest =>
      if c = lbrace then fmtRun task FMode.openB rest
      else if c = rbrace then fmtRun task FMode.closeB rest
      else (fmtRun task FMode.lit rest).map (fun out => c :: out)
  | FMode.openB, c :: rest =>
      if c = lbrace then (fmtRun task FMode.lit rest).map (fun out => lbrace :: out)
      else if c = rbrace then
        match fieldSubst task [] with
        | Except.ok repl => (fmtRun task FMode.lit rest).map (fun out => repl ++ out)
        | Except.error e => Except.error e
      else fmtRun task (FMode.field [c]) rest
  | FMode.closeB, c :: rest =>
      if c = rbrace then (fmtRun task FMode.lit rest).map (fun out => rbrace :: out)
      else Except.error FmtError.valueError
  | FMode.field acc, c :: rest =>
      if c = rbrace then
        match fieldSubst task acc with
        | Except.ok repl => (fmtRun task FMode.lit rest).map (fun out => repl ++ out)
        | Except.error e => Except.error e
      else fmtRun task (FMode.field (acc ++ [c])) rest

/-- `template.format(task=task_text)`. -/
def pyFormat (template task_text : String) : Except FmtError String :=
  (fmtRun task_text.data FMode.lit template.data).map (fun cs => String.mk cs)

/-- Python's substring test `needle in hay`. -/
def hasSubstr : List Char → List Char → Bool
  | needle, [] => needle.isEmpty
  | needle, c :: rest => needle.isPrefixOf (c :: rest) || hasSubstr needle rest

/-- Whitespace stripped by `str.strip` (ASCII subset). -/
def isSpaceChar (c : Char) : Bool :=
  c = ' ' || c = Char.ofNat 9 || c = Char.ofNat 10
    || c = Char.ofNat 13 || c = Char.ofNat 11 || c = Char.ofNat 12

/-- `str.strip`: drop whitespace from both ends. -/
def pyStrip (s : List Char) : List Char :=
  ((s.dropWhile isSpaceChar).reverse.dropWhile isSpaceChar).reverse

/-- The fallback of `render_task_prompt`: the stripped template followed by
the separating heading and the task text, or the task text alone when the
stripped template is empty. -/
def renderFallback (template task_text : String) : String :=
  let cleaned := String.mk (pyStrip template.data)
  if cleaned = "" then task_text
  else cleaned ++ "\n\nTask Instructions:\n" ++ task_text

/-- `DEFAULT_PROMPT_TEMPLATE` from `prompts.py`. -/
def DEFAULT_PROMPT_TEMPLATE : String :=
  "You are a FortiIdentity Cloud support specialist partnering with network and IT administrators. Provide accurate, actionable guidance on multi-factor authentication policies, identity sources, directory synchronization, and user lifecycle management. Always confirm the administrator\x27s objective, reference Fortinet-recommended best practices, and outline concise steps tailored to FortiIdentity Cloud. Task instructions:\n\x7btask\x7d"

/-- `render_task_prompt` (`prompts.py` lines 15-27).  An empty or missing
template falls back to the default (`prompt_template or DEFAULT`); when
the template contains the placeholder token, `format` is attempted and
`KeyError`/`ValueError` fall through to the fallback, while any other
exception (e.g. `IndexError` from a positional field) propagates —
modelled as `Except.error`. -/
def renderTaskPrompt (task_text : String) (prompt_template : Option String) :
    Except FmtError String :=
  let template :=
    match prompt_template with
    | some t => if t = "" then DEFAULT_PROMPT_TEMPLATE else t
    | none => DEFAULT_PROMPT_TEMPLATE
  if hasSubstr taskPlaceholder.data template.data then
    match pyFormat template task_text with
    | Except.ok s => Except.ok s
    | Except.error FmtError.keyError => Except.ok (renderFallback template task_text)
    | Except.error FmtError.valueError => Except.ok (renderFallback template task_text)
    | Except.error FmtError.indexError => Except.error FmtError.indexError
  else Except.ok (renderFallback template task_text)

/-- `str.replace` specialized to the six-character placeholder token:
left-to-right, non-overlapping textual replacement.  This is the claim's
reading of successful substitution ("the template with the placeholder
replaced by the task text"), used to compare against the code's actual
`str.format` semantics. -/
def replaceTask (repl : List Char) : List Char → List Char
  | c1 :: c2 :: c3 :: c4 :: c5 :: c6 :: rest =>
      if [c1, c2, c3, c4, c5, c6] = taskPlaceholder.data
      then repl ++ replaceTask repl rest
      else c1 :: replaceTask repl (c2 :: c3 :: c4 :: c5 :: c6 :: rest)
  | c :: rest => c :: replaceTask repl rest
  | [] => []

/-- **C9 (counterexample).** Successful substitution is not plain textual
replacement of the placeholder: a template containing doubled braces has
them unescaped by `format`, so the rendered prompt differs from "the
template with the placeholder replaced by the task text". -/
theorem c9_escaped_braces_not_plain_replacement :
    renderTaskPrompt "T" (some "Use \x7b\x7bliteral\x7d\x7d and \x7btask\x7d") =
      Except.ok "Use \x7bliteral\x7d and T"
    ∧ String.mk (replaceTask "T".data ("Use \x7b\x7bliteral\x7d\x7d and \x7btask\x7d").data) =
      "Use \x7b\x7bliteral\x7d\x7d and T"
    ∧ ("Use \x7bliteral\x7d and T" : String) ≠ "Use \x7b\x7bliteral\x7d\x7d and T" := by
  refine ⟨by decide, by decide, by decide⟩

lemma goodChar_ne_lbrace (c : Char) (h : c.isAlphanum = true ∨ c = '_') : ¬ c = lbrace := by
  rintro rfl
  rcases h with h | h
  · exact absurd h (by decide)
  · exact absurd h (by decide)

lemma goodChar_ne_rbrace (c : Char) (h : c.isAlphanum = true ∨ c = '_') : ¬ c = rbrace := by
  rintro rfl
  rcases h with h | h
  · exact absurd h (by decide)
  · exact absurd h (by decide)

lemma fmtRun_text (task : List Char) :
    ∀ (s l : List Char), (∀ c ∈ s, ¬ c = lbrace ∧ ¬ c = rbrace) →
      fmtRun task FMode.lit (s ++ l) =
        (fmtRun task FMode.lit l).map (fun out => s ++ out)
  | [], l, _ => by
      cases h : fmtRun task FMode.lit l <;> simp [Except.map, h]
  | c :: s, l, hbf => by
      have hc := hbf c (List.mem_cons_self _ _)
      have ih := fmtRun_text task s l (fun d hd => hbf d (List.mem_cons_of_mem _ hd))
      simp only [List.cons_append, fmtRun, List.append_eq]
      rw [if_neg hc.1, if_neg hc.2, ih]
      cases fmtRun task FMode.lit l <;> simp [Except.map]

lemma fmtRun_field (task : List Char) :
    ∀ (name acc l : List Char),
      (∀ c ∈ name, c.isAlphanum = true ∨ c = '_') →
      fmtRun task (FMode.field acc) (name ++ rbrace :: l) =
        (match fieldSubst task (acc ++ name) with
          | Except.ok repl => (fmtRun task FMode.lit l).map (fun out => repl ++ out)
          | Except.error e => Except.error e)
  | [], acc, l, _ => by
      simp [fmtRun]
  | c :: name, acc, l, hgood => by
      have hc : ¬ c = rbrace := goodChar_ne_rbrace c (hgood c (List.mem_cons_self _ _))
      have ih := fmtRun_field task name (acc ++ [c]) l
        (fun d hd => hgood d (List.mem_cons_of_mem _ hd))
      simp only [List.cons_append, fmtRun, List.append_eq]
      rw [if_neg hc, ih]
      simp [List.append_assoc]

lemma fmtRun_openField (task : List Char) (name l : List Char)
    (hgood : ∀ c ∈ name, c.isAlphanum = true ∨ c = '_') :
    fmtRun task FMode.openB (name ++ rbrace :: l) =
      (match fieldSubst task name with
        | Except.ok repl => (fmtRun task FMode.lit l).map (fun out => repl ++ out)
        | Except.error e => Except.error e) := by
  cases name with
  | nil =>
      simp [fmtRun, show ¬ rbrace = lbrace from by decide]
  | cons c nm =>
      have hcl : ¬ c = lbrace := goodChar_ne_lbrace c (hgood c (List.mem_cons_self _ _))
      have hcr : ¬ c = rbrace := goodChar_ne_rbrace c (hgood c (List.mem_cons_self _ _))
      have ih := fmtRun_field task nm [c] l (fun d hd => hgood d (List.mem_cons_of_mem _ hd))
      simp only [List.cons_append, fmtRun, List.append_eq]
      rw [if_neg hcl, if_neg hcr, ih]
      simp

/-- Structure of a template for the segment-level specification of
substitution: literal brace-free text, the escapes `\x7b\x7b` and
`\x7d\x7d`, and plain replacement fields `\x7bname\x7d`. -/
inductive PromptSeg
  | text (s : List Char)
  | escL
  | escR
  | fieldSeg (name : List Char)
deriving DecidableEq

/-- The characters a segment contributes to the template. -/
def PromptSeg.render : PromptSeg → List Char
  | text s => s
  | escL => [lbrace, lbrace]
  | escR => [rbrace, rbrace]
  | fieldSeg name => lbrace :: (name ++ [rbrace])

/-- The substitution a segment denotes: literal text kept, escapes
unescaped to single braces, fields resolved against the single `task`
keyword argument. -/
def PromptSeg.subst (task : List Char) : PromptSeg → Except FmtError (List Char)
  | text s => Except.ok s
  | escL => Except.ok [lbrace]
  | escR => Except.ok [rbrace]
  | fieldSeg name => fieldSubst task name

/-- Well-formedness of a segment: literal text holds no braces, field
names are made of letters, digits and underscores. -/
def PromptSeg.wf : PromptSeg → Prop
  | text s => ∀ c ∈ s, ¬ c = lbrace ∧ ¬ c = rbrace
  | fieldSeg name => ∀ c ∈ name, c.isAlphanum = true ∨ c = '_'
  | _ => True

instance (s : PromptSeg) : Decidable s.wf := by
  cases s <;> simp only [PromptSeg.wf] <;> infer_instance

/-- The template a segment list denotes. -/
def segsRender : List PromptSeg → List Char
  | [] => []
  | s :: rest => s.render ++ segsRender rest

/-- The specification-level result of substituting the task text into a
segment list: the concatenation of each segment's substitution, failing
with the first field error. -/
def segsFormat (task : List Char) : List PromptSeg → Except FmtError (List Char)
  | [] => Except.ok []
  | s :: rest =>
      match s.subst task with
      | Except.ok out => (segsFormat task rest).map (fun tailOut => out ++ tailOut)
      | Except.error e => Except.error e

/-- The `str.format` model agrees with the segment-level specification on
well-formed segment lists. -/
lemma fmt_segments (task : List Char) :
    ∀ (segs : List PromptSeg), (∀ s ∈ segs, s.wf) →
      fmtRun task FMode.lit (segsRender segs) = segsFormat task segs
  | [], _ => rfl
  | PromptSeg.text s :: rest, hwf => by
      have hbf : ∀ c ∈ s, ¬ c = lbrace ∧ ¬ c = rbrace := hwf _ (List.mem_cons_self _ _)
      have ih := fmt_segments task rest (fun x hx => hwf x (List.mem_cons_of_mem _ hx))
      simp only [segsRender, PromptSeg.render]
      rw [fmtRun_text task s _ hbf, ih]
      simp only [segsFormat, PromptSeg.subst]
  | PromptSeg.escL :: rest, hwf => by
      have ih := fmt_segments task rest (fun x hx => hwf x (List.mem_cons_of_mem _ hx))
      simp only [segsRender, PromptSeg.render, List.cons_append, List.nil_append]
      rw [show fmtRun task FMode.lit (lbrace :: lbrace :: segsRender rest)
          = (fmtRun task FMode.lit (segsRender rest)).map (fun out => lbrace :: out) from by
        simp [fmtRun]]
      rw [ih]
      simp only [segsFormat, PromptSeg.subst]
      cases segsFormat task rest <;> simp [Except.map]
  | PromptSeg.escR :: rest, hwf => by
      have ih := fmt_segments task rest (fun x hx => hwf x (List.mem_cons_of_mem _ hx))
      simp only [segsRender, PromptSeg.render, List.cons_append, List.nil_append]
      rw [show fmtRun task FMode.lit (rbrace :: rbrace :: segsRender rest)
          = (fmtRun task FMode.lit (segsRender rest)).map (fun out => rbrace :: out) from by
        simp [fmtRun, show ¬ rbrace = lbrace from by decide]]
      rw [ih]
      simp only [segsFormat, PromptSeg.subst]
      cases segsFormat task rest <;> simp [Except.map]
  | PromptSeg.fieldSeg name :: rest, hwf => by
      have hgood : ∀ c ∈ name, c.isAlphanum = true ∨ c = '_' := hwf _ (List.mem_cons_self _ _)
      have ih := fmt_segments task rest (fun x hx => hwf x (List.mem_cons_of_mem _ hx))
      simp only [segsRender, PromptSeg.render, List.cons_append]
      have hshape : (name ++ [rbrace]) ++ segsRender rest = name ++ rbrace :: segsRender rest := by
        simp
      rw [hshape]
      rw [show fmtRun task FMode.lit (lbrace :: (name ++ rbrace :: segsRender rest))
          = fmtRun task FMode.openB (name ++ rbrace :: segsRender rest) from by simp [fmtRun]]
      rw [fmtRun_openField task name _ hgood]
      cases hfs : fieldSubst task name with
      | ok repl =>
          simp only [segsFormat, PromptSeg.subst, hfs]
          rw [ih]
      | error e =>
          simp only [segsFormat, PromptSeg.subst, hfs]

set_option maxRecDepth 8000 in
/-- **C9 (amended).** Prompt rendering: when no template (or an empty
template) is supplied, the default template is used; when the template
contains the placeholder token and substitution succeeds, the result is
the template rendered with Python format-string semantics — each
`\x7btask\x7d` field replaced by the task text and each doubled brace
unescaped to a single brace (not plain textual replacement of the
placeholder); when the placeholder is absent, or substitution raises a
key or value formatting error, the result is the stripped template
followed by a separating heading and the task text (the task text alone
when the stripped template is empty). -/
theorem c9_prompt_rendering (task_text : String) (segs : List PromptSeg)
    (hwf : ∀ s ∈ segs, s.wf) (hne : ¬ String.mk (segsRender segs) = "") :
    (∀ out, segsFormat task_text.data segs = Except.ok out →
      hasSubstr taskPlaceholder.data (segsRender segs) = true →
      renderTaskPrompt task_text (some (String.mk (segsRender segs))) =
        Except.ok (String.mk out))
    ∧ (∀ e, segsFormat task_text.data segs = Except.error e →
        (e = FmtError.keyError ∨ e = FmtError.valueError) →
        hasSubstr taskPlaceholder.data (segsRender segs) = true →
        renderTaskPrompt task_text (some (String.mk (segsRender segs))) =
          Except.ok (renderFallback (String.mk (segsRender segs)) task_text))
    ∧ (hasSubstr taskPlaceholder.data (segsRender segs) = false →
        renderTaskPrompt task_text (some (String.mk (segsRender segs))) =
          Except.ok (renderFallback (String.mk (segsRender segs)) task_text))
    ∧ renderTaskPrompt task_text none =
        renderTaskPrompt task_text (some DEFAULT_PROMPT_TEMPLATE)
    ∧ renderTaskPrompt task_text (some "") =
        renderTaskPrompt task_text (some DEFAULT_PROMPT_TEMPLATE) := by
  have hpf : pyFormat (String.mk (segsRender segs)) task_text =
      (segsFormat task_text.data segs).map (fun cs => String.mk cs) := by
    unfold pyFormat
    rw [show (String.mk (segsRender segs)).data = segsRender segs from rfl,
      fmt_segments task_text.data segs hwf]
  refine ⟨?_, ?_, ?_, by simp only [renderTaskPrompt, ite_self, if_true, if_false],
    by simp only [renderTaskPrompt, ite_self, if_true, if_false]⟩
  · intro out hok hsub
    simp [renderTaskPrompt, hne, hsub, hpf, hok, Except.map]
  · intro e herr hke hsub
    rcases hke with rfl | rfl <;>
      simp [renderTaskPrompt, hne, hsub, hpf, herr, Except.map]
  · intro hsub
    simp [renderTaskPrompt, hne, hsub]

/-- Concrete segment list for the C9 witness: literal text, the task
placeholder, and an escaped brace pair. -/
def segsWitness : List PromptSeg :=
  [PromptSeg.text ("Run: ").data, PromptSeg.fieldSeg ("task").data,
    PromptSeg.escL, PromptSeg.escR]

/-- Witness for C9 (amended) at a concrete template: successful
substitution replaces the field and unescapes the doubled braces. -/
theorem c9_prompt_rendering_witness :
    ((∀ s ∈ segsWitness, s.wf)
      ∧ ¬ String.mk (segsRender segsWitness) = ""
      ∧ segsFormat ("T").data segsWitness = Except.ok ("Run: T\x7b\x7d").data
      ∧ hasSubstr taskPlaceholder.data (segsRender segsWitness) = true)
    ∧ renderTaskPrompt "T" (some (String.mk (segsRender segsWitness))) =
        Except.ok (String.mk ("Run: T\x7b\x7d").data) :=
  ⟨⟨by decide, by decide, by decide, by decide⟩,
    (c9_prompt_rendering "T" segsWitness (by decide) (by decide)).1
      ("Run: T\x7b\x7d").data (by decide) (by decide)⟩
